import Mathlib

/-!
Shallow embedding of the crawler in `src/crawler.py`.

The traversal core is embedded as executable Lean definitions: `Link`,
the strategy step functions `bfs_step` and `dfs_step`, the link filter
`clean_links` (source name `_clean_links`), the constructor `mkCrawler`
(`Crawler.__init__` with its `_funcs` dictionary lookup), and the crawl
loop as a step function `crawlStep` on an explicit `CrawlState`, iterated
by the fuelled `crawlRun`.

The external world is a finite table `web : List (String × Page)` mapping
an address to the articles and hrefs its page yields; `_fetch_page`
returning `None` (a reported failure: invalid URL, or non-success response)
is modelled by the address being absent from the table.  A transport-level
network error is different: `requests.get` raises and neither `_fetch_page`
nor `crawl` has a handler, so the run aborts — that path is modelled
separately by `FetchOutcome` and the exception-aware `crawlStepE` and
`crawlRunE`.  The state carries
two traces of observable events: the addresses passed to `_fetch_page`
(`fetched`) and the links accepted for processing, i.e. marked visited
(`accepted`).
-/

/-- `Link = namedtuple("Link", ["addr", "depth"])`: an address plus the depth
at which it was discovered. -/
structure Link where
  addr : String
  depth : Nat
deriving DecidableEq, Repr

/-- What fetching and parsing one page yields: the article texts extracted by
`_fetch_articles` and the hrefs extracted by `_fetch_links`. -/
structure Page where
  articles : List String
  links : List String
deriving DecidableEq, Repr

/-- Coarse fetch model: look an address up in the finite web table.  `none`
is a reported fetch failure, i.e. `_fetch_page` returning `None` (the
`validators.url` check fails, or the response is non-success).  A raising
network error is not representable here; see `FetchOutcome` below. -/
def lookupPage : List (String × Page) → String → Option Page
  | [], _ => none
  | (k, p) :: rest, a => if k = a then some p else lookupPage rest a

/-- Helper for the substring test: does `sub` occur inside the character
list? -/
def hasSubstrAux (sub : List Char) : List Char → Bool
  | [] => sub.isEmpty
  | c :: rest => List.isPrefixOf sub (c :: rest) || hasSubstrAux sub rest

/-- Python's `sub in hay` substring test on strings. -/
def hasSubstr (hay sub : String) : Bool :=
  hasSubstrAux sub.data hay.data

/-- Python's `hay.endswith(suff)` suffix test, on the underlying character
lists. -/
def strEndsWith (hay suff : String) : Bool :=
  List.isSuffixOf suff.data hay.data

/-- `_clean_links` from the source: keep the addresses that contain
`"://www.unipa.it"`, do not contain `"://www.unipa.it/.content"` and do not
end in `"pdf"`, then remove the ones already visited.  The source collects
the survivors into a Python set and returns `list(temp - _visited)`; the
embedding keeps the survivors in list order, which fixes one enumeration of
that set. -/
def clean_links (visited : List String) (links : List String) : List String :=
  (links.filter fun addr =>
      hasSubstr addr "://www.unipa.it"
        && !hasSubstr addr "://www.unipa.it/.content"
        && !strEndsWith addr "pdf").filter
    fun addr => decide (addr ∉ visited)

/-- `_bfs_step`: wrap the discovered addresses as Links at `depth + 1` and
append them to the end of the pending list (`queue + nodes`). -/
def bfs_step (queue : List Link) (nodes : List String) (depth : Nat) : List Link :=
  queue ++ nodes.map fun el => Link.mk el (depth + 1)

/-- `_dfs_step`: wrap the discovered addresses as Links at `depth + 1` and
prepend them to the front of the pending list (`nodes + stack`). -/
def dfs_step (stack : List Link) (nodes : List String) (depth : Nat) : List Link :=
  (nodes.map fun el => Link.mk el (depth + 1)) ++ stack

/-- The configuration fixed by `Crawler.__init__`.  `max_visits` defaults to
`math.inf`, modelled as `none`; `Int` bounds keep negative configurations
representable because the source never validates them. -/
structure Config where
  root : String
  maxDepth : Int
  maxVisits : Option Int
  strategy : String
deriving Repr

/-- The `_funcs` dictionary of `Crawler.__init__`, mapping a strategy name to
its step function. -/
def lookupStrategy (s : String) : Option (List Link → List String → Nat → List Link) :=
  if s = "dfs" then some dfs_step
  else if s = "bfs" then some bfs_step
  else none

/-- `Crawler.__init__`: stores the arguments and performs the dictionary
lookup `_funcs[self.strategy]`.  An unknown strategy name raises `KeyError`
there, so construction fails (`none`); no other argument is checked. -/
def mkCrawler (root : String) (maxDepth : Int) (maxVisits : Option Int)
    (strategy : String) : Option Config :=
  match lookupStrategy strategy with
  | none => none
  | some _ =>
    some { root := root, maxDepth := maxDepth, maxVisits := maxVisits, strategy := strategy }

/-- `networkx.Graph.add_node`: insert an address into the node list unless it
is already present. -/
def insertNode (a : String) (nodes : List String) : List String :=
  if a ∈ nodes then nodes else nodes ++ [a]

/-- `networkx.Graph.add_edge`: record the undirected edge unless it is
already present (in either orientation), and add both endpoints as nodes. -/
def insertEdge (u v : String) (nodes : List String) (edges : List (String × String)) :
    List String × List (String × String) :=
  (insertNode v (insertNode u nodes),
    if (u, v) ∈ edges ∨ (v, u) ∈ edges then edges else edges ++ [(u, v)])

/-- The `for link in neigh_links: self.topology.add_edge(node.addr, link)`
loop. -/
def addEdges (u : String) (vs : List String) (nodes : List String)
    (edges : List (String × String)) : List String × List (String × String) :=
  match vs with
  | [] => (nodes, edges)
  | v :: rest =>
    let p := insertEdge u v nodes edges
    addEdges u rest p.1 p.2

/-- Python dict assignment `d[k] = v`: overwrite the entry in place if the
key exists, otherwise append it. -/
def dictInsert (k : String) (v : List String) :
    List (String × List String) → List (String × List String)
  | [] => [(k, v)]
  | (k', v') :: rest =>
    if k' = k then (k, v) :: rest else (k', v') :: dictInsert k v rest

/-- The mutable state of `Crawler.crawl`: the pending list `_links`, the
visited set `_visited` (kept in insertion order, so its length is the set's
size), the topology graph's nodes and edges, the `_articles` dict, plus the
two observable traces `fetched` (addresses passed to `_fetch_page`) and
`accepted` (Links marked visited, in order), and the flag recording that the
visit-limit `break` was taken. -/
structure CrawlState where
  links : List Link
  visited : List String
  topoNodes : List String
  topoEdges : List (String × String)
  articles : List (String × List String)
  fetched : List String
  accepted : List Link
  limitReached : Bool
deriving DecidableEq, Repr

/-- The state right after `__init__`: the pending list holds the root at
depth 0 and everything else is empty. -/
def initState (cfg : Config) : CrawlState :=
  { links := [⟨cfg.root, 0⟩], visited := [], topoNodes := [], topoEdges := [],
    articles := [], fetched := [], accepted := [], limitReached := false }

/-- One iteration of the `while self._links != []:` loop body.  Faithful to
the source: `self._links.pop()` removes the LAST element regardless of the
strategy; `add_node` precedes the visited check; the visit-limit equality
check follows `self._visited.add` and precedes the fetch; links are cleaned
against the visited set that already contains the current address; the
strategy merge receives the popped list and the cleaned links. -/
def crawlStep (cfg : Config) (web : List (String × Page)) (s : CrawlState) : CrawlState :=
  match s.links.getLast? with
  | none => s
  | some node =>
    let s1 : CrawlState :=
      { s with links := s.links.dropLast, topoNodes := insertNode node.addr s.topoNodes }
    if node.addr ∈ s1.visited then s1
    else
      let s2 : CrawlState :=
        { s1 with visited := s1.visited ++ [node.addr], accepted := s1.accepted ++ [node] }
      if cfg.maxVisits = some (s2.visited.length : Int) then
        { s2 with limitReached := true }
      else
        let s3 : CrawlState := { s2 with fetched := s2.fetched ++ [node.addr] }
        match lookupPage web node.addr with
        | none => s3
        | some page =>
          let s4 : CrawlState :=
            { s3 with articles := dictInsert node.addr page.articles s3.articles }
          if (node.depth : Int) < cfg.maxDepth then
            let neigh := clean_links s4.visited page.links
            let p := addEdges node.addr neigh s4.topoNodes s4.topoEdges
            let newLinks :=
              if cfg.strategy = "dfs" then dfs_step s4.links neigh node.depth
              else bfs_step s4.links neigh node.depth
            { s4 with topoNodes := p.1, topoEdges := p.2, links := newLinks }
          else s4

/-- The loop has ended: either the `break` was taken (VISIT_LIMIT_REACHED) or
the `while` guard failed because the pending list is empty (EXHAUSTED). -/
def isTerminal (s : CrawlState) : Bool :=
  s.limitReached || s.links.isEmpty

/-- Fuelled unfolding of the crawl loop: perform up to `fuel` iterations,
stopping at a terminal state. -/
def crawlRun (cfg : Config) (web : List (String × Page)) : Nat → CrawlState → CrawlState
  | 0, s => s
  | n + 1, s => if isTerminal s then s else crawlRun cfg web n (crawlStep cfg web s)

/-- `Crawler.crawl`: runs the loop and falls off the end of the function body
without a `return` statement, so the Python call returns `None` — the second
component — despite the `-> dict[str, list[str]]` annotation. -/
def crawl (cfg : Config) (web : List (String × Page)) (fuel : Nat) :
    CrawlState × Option (List (String × List String)) :=
  (crawlRun cfg web fuel (initState cfg), none)

/-- `Crawler.output_articles`: the serialized mapping is exactly the internal
`_articles` dict. -/
def output_articles (s : CrawlState) : List (String × List String) :=
  s.articles

/-! ### Exception-aware fetch model -/

/-- The possible outcomes of `_fetch_page` on one address.  In the source a
failing `validators.url` check returns `None` before any request is made,
and a non-success response (`not res.ok`) prints a message and returns
`None`; but a transport-level network error makes `requests.get` raise, and
neither `_fetch_page` nor `crawl` has a handler, so the exception escapes
the whole run.  An address missing from an outcome table behaves as
`invalidUrl`. -/
inductive FetchOutcome where
  | ok (page : Page)
  | invalidUrl
  | httpError
  | netError
deriving DecidableEq, Repr

/-- Outcome lookup; a missing address counts as a reported failure. -/
def lookupOutcome : List (String × FetchOutcome) → String → FetchOutcome
  | [], _ => FetchOutcome.invalidUrl
  | (k, o) :: rest, a => if k = a then o else lookupOutcome rest a

/-- `_fetch_page` with its exception path explicit: reported failures return
`None` (`Except.ok none`); a network error raises (`Except.error ()`). -/
def fetch_page (webE : List (String × FetchOutcome)) (a : String) :
    Except Unit (Option Page) :=
  match lookupOutcome webE a with
  | FetchOutcome.ok page => Except.ok (some page)
  | FetchOutcome.invalidUrl => Except.ok none
  | FetchOutcome.httpError => Except.ok none
  | FetchOutcome.netError => Except.error ()

/-- One loop iteration against the exception-aware fetch: identical to
`crawlStep` except that the fetch can raise, and the exception propagates
out of the iteration (nothing in `crawl` catches it). -/
def crawlStepE (cfg : Config) (webE : List (String × FetchOutcome)) (s : CrawlState) :
    Except Unit CrawlState :=
  match s.links.getLast? with
  | none => Except.ok s
  | some node =>
    let s1 : CrawlState :=
      { s with links := s.links.dropLast, topoNodes := insertNode node.addr s.topoNodes }
    if node.addr ∈ s1.visited then Except.ok s1
    else
      let s2 : CrawlState :=
        { s1 with visited := s1.visited ++ [node.addr], accepted := s1.accepted ++ [node] }
      if cfg.maxVisits = some (s2.visited.length : Int) then
        Except.ok { s2 with limitReached := true }
      else
        let s3 : CrawlState := { s2 with fetched := s2.fetched ++ [node.addr] }
        match fetch_page webE node.addr with
        | Except.error e => Except.error e
        | Except.ok none => Except.ok s3
        | Except.ok (some page) =>
          let s4 : CrawlState :=
            { s3 with articles := dictInsert node.addr page.articles s3.articles }
          if (node.depth : Int) < cfg.maxDepth then
            let neigh := clean_links s4.visited page.links
            let p := addEdges node.addr neigh s4.topoNodes s4.topoEdges
            let newLinks :=
              if cfg.strategy = "dfs" then dfs_step s4.links neigh node.depth
              else bfs_step s4.links neigh node.depth
            Except.ok { s4 with topoNodes := p.1, topoEdges := p.2, links := newLinks }
          else Except.ok s4

/-- The crawl loop with exception propagation: an uncaught exception ends the
whole run with no final state. -/
def crawlRunE (cfg : Config) (webE : List (String × FetchOutcome)) :
    Nat → CrawlState → Except Unit CrawlState
  | 0, s => Except.ok s
  | n + 1, s =>
    if isTerminal s then Except.ok s
    else
      match crawlStepE cfg webE s with
      | Except.error e => Except.error e
      | Except.ok t => crawlRunE cfg webE n t


/-! ### Concrete scenarios -/

/-- Address of the root page in the concrete scenarios. -/
def addrA : String := "https://www.unipa.it/a"

/-- A child page address. -/
def addrB : String := "https://www.unipa.it/b"

/-- A child page address. -/
def addrC : String := "https://www.unipa.it/c"

/-- A grandchild page address. -/
def addrD : String := "https://www.unipa.it/d"

/-- Chain web: the root links to `B` and `C`; `C` links to `D`; `B` and `D`
are leaves.  All four addresses pass the link filter. -/
def webChain : List (String × Page) :=
  [(addrA, ⟨["articleA"], [addrB, addrC]⟩),
   (addrB, ⟨["articleB"], []⟩),
   (addrC, ⟨["articleC"], [addrD]⟩),
   (addrD, ⟨["articleD"], []⟩)]

/-- The chain web crawled breadth-first, depth 2, unbounded visits. -/
def cfgBfsChain : Config :=
  { root := addrA, maxDepth := 2, maxVisits := none, strategy := "bfs" }

/-- The chain web crawled depth-first, depth 2, unbounded visits. -/
def cfgDfsChain : Config :=
  { root := addrA, maxDepth := 2, maxVisits := none, strategy := "dfs" }

/-- Scenario B graph: the root links to `B` and `C`, and `B` links to `D`. -/
def webScB : List (String × Page) :=
  [(addrA, ⟨["articleA"], [addrB, addrC]⟩),
   (addrB, ⟨["articleB"], [addrD]⟩),
   (addrC, ⟨["articleC"], []⟩),
   (addrD, ⟨["articleD"], []⟩)]

/-- Scenario B configuration: breadth-first, `maxVisits = 2`. -/
def cfgScB : Config :=
  { root := addrA, maxDepth := 1, maxVisits := some 2, strategy := "bfs" }

/-- Scenario D graph: `D` is linked from both `B` and `C`, so it can enter the
pending list twice before being processed. -/
def webDup : List (String × Page) :=
  [(addrA, ⟨["articleA"], [addrB, addrC]⟩),
   (addrB, ⟨["articleB"], [addrD]⟩),
   (addrC, ⟨["articleC"], [addrD]⟩),
   (addrD, ⟨["articleD"], []⟩)]

/-- Scenario D configuration: depth-first, depth 3, unbounded visits.  Under
it the run pops `D` twice. -/
def cfgDup : Config :=
  { root := addrA, maxDepth := 3, maxVisits := none, strategy := "dfs" }

/-- Outcome table where the root's page and child `B`'s page are fine, but
fetching child `C` raises a network error.  Under `cfgBfsChain` the run pops
`C` while `B` is still pending. -/
def webNet : List (String × FetchOutcome) :=
  [(addrA, FetchOutcome.ok ⟨["articleA"], [addrB, addrC]⟩),
   (addrB, FetchOutcome.ok ⟨["articleB"], []⟩),
   (addrC, FetchOutcome.netError)]


/-! ### Branch characterizations of `crawlStep` -/

theorem crawlStep_none (cfg : Config) (web : List (String × Page)) (s : CrawlState)
    (h : s.links.getLast? = none) : crawlStep cfg web s = s := by
  simp only [crawlStep, h]

theorem crawlStep_dup (cfg : Config) (web : List (String × Page)) (s : CrawlState)
    (node : Link) (h : s.links.getLast? = some node) (hv : node.addr ∈ s.visited) :
    crawlStep cfg web s =
      { s with links := s.links.dropLast, topoNodes := insertNode node.addr s.topoNodes } := by
  simp only [crawlStep, h]
  simp [hv]

theorem crawlStep_limit (cfg : Config) (web : List (String × Page)) (s : CrawlState)
    (node : Link) (h : s.links.getLast? = some node) (hv : node.addr ∉ s.visited)
    (hm : cfg.maxVisits = some ((s.visited.length : Int) + 1)) :
    crawlStep cfg web s =
      { s with links := s.links.dropLast, topoNodes := insertNode node.addr s.topoNodes,
               visited := s.visited ++ [node.addr], accepted := s.accepted ++ [node],
               limitReached := true } := by
  simp only [crawlStep, h]
  simp [hv, hm]

theorem crawlStep_fail (cfg : Config) (web : List (String × Page)) (s : CrawlState)
    (node : Link) (h : s.links.getLast? = some node) (hv : node.addr ∉ s.visited)
    (hm : cfg.maxVisits ≠ some ((s.visited.length : Int) + 1))
    (hp : lookupPage web node.addr = none) :
    crawlStep cfg web s =
      { s with links := s.links.dropLast, topoNodes := insertNode node.addr s.topoNodes,
               visited := s.visited ++ [node.addr], accepted := s.accepted ++ [node],
               fetched := s.fetched ++ [node.addr] } := by
  simp only [crawlStep, h]
  simp [hv, hm, hp]

theorem crawlStep_noExpand (cfg : Config) (web : List (String × Page)) (s : CrawlState)
    (node : Link) (page : Page) (h : s.links.getLast? = some node)
    (hv : node.addr ∉ s.visited)
    (hm : cfg.maxVisits ≠ some ((s.visited.length : Int) + 1))
    (hp : lookupPage web node.addr = some page)
    (hd : ¬ ((node.depth : Int) < cfg.maxDepth)) :
    crawlStep cfg web s =
      { s with links := s.links.dropLast, topoNodes := insertNode node.addr s.topoNodes,
               visited := s.visited ++ [node.addr], accepted := s.accepted ++ [node],
               fetched := s.fetched ++ [node.addr],
               articles := dictInsert node.addr page.articles s.articles } := by
  simp only [crawlStep, h]
  simp [hv, hm, hp, hd]

theorem crawlStep_expand (cfg : Config) (web : List (String × Page)) (s : CrawlState)
    (node : Link) (page : Page) (h : s.links.getLast? = some node)
    (hv : node.addr ∉ s.visited)
    (hm : cfg.maxVisits ≠ some ((s.visited.length : Int) + 1))
    (hp : lookupPage web node.addr = some page)
    (hd : (node.depth : Int) < cfg.maxDepth) :
    crawlStep cfg web s =
      { s with
        links :=
          if cfg.strategy = "dfs" then
            dfs_step s.links.dropLast (clean_links (s.visited ++ [node.addr]) page.links) node.depth
          else
            bfs_step s.links.dropLast (clean_links (s.visited ++ [node.addr]) page.links) node.depth,
        topoNodes :=
          (addEdges node.addr (clean_links (s.visited ++ [node.addr]) page.links)
            (insertNode node.addr s.topoNodes) s.topoEdges).1,
        topoEdges :=
          (addEdges node.addr (clean_links (s.visited ++ [node.addr]) page.links)
            (insertNode node.addr s.topoNodes) s.topoEdges).2,
        visited := s.visited ++ [node.addr], accepted := s.accepted ++ [node],
        fetched := s.fetched ++ [node.addr],
        articles := dictInsert node.addr page.articles s.articles } := by
  simp only [crawlStep, h]
  simp [hv, hm, hp, hd]

/-- Exhaustive case analysis on one loop iteration, with the resulting state
spelled out per branch. -/
theorem crawlStep_cases (cfg : Config) (web : List (String × Page)) (s : CrawlState)
    (P : CrawlState → Prop)
    (hnone : s.links.getLast? = none → P s)
    (hdup : ∀ node, s.links.getLast? = some node → node.addr ∈ s.visited →
      P { s with links := s.links.dropLast, topoNodes := insertNode node.addr s.topoNodes })
    (hlimit : ∀ node, s.links.getLast? = some node → node.addr ∉ s.visited →
      cfg.maxVisits = some ((s.visited.length : Int) + 1) →
      P { s with links := s.links.dropLast, topoNodes := insertNode node.addr s.topoNodes,
                 visited := s.visited ++ [node.addr], accepted := s.accepted ++ [node],
                 limitReached := true })
    (hfail : ∀ node, s.links.getLast? = some node → node.addr ∉ s.visited →
      cfg.maxVisits ≠ some ((s.visited.length : Int) + 1) →
      lookupPage web node.addr = none →
      P { s with links := s.links.dropLast, topoNodes := insertNode node.addr s.topoNodes,
                 visited := s.visited ++ [node.addr], accepted := s.accepted ++ [node],
                 fetched := s.fetched ++ [node.addr] })
    (hnoexp : ∀ node page, s.links.getLast? = some node → node.addr ∉ s.visited →
      cfg.maxVisits ≠ some ((s.visited.length : Int) + 1) →
      lookupPage web node.addr = some page → ¬ ((node.depth : Int) < cfg.maxDepth) →
      P { s with links := s.links.dropLast, topoNodes := insertNode node.addr s.topoNodes,
                 visited := s.visited ++ [node.addr], accepted := s.accepted ++ [node],
                 fetched := s.fetched ++ [node.addr],
                 articles := dictInsert node.addr page.articles s.articles })
    (hexp : ∀ node page, s.links.getLast? = some node → node.addr ∉ s.visited →
      cfg.maxVisits ≠ some ((s.visited.length : Int) + 1) →
      lookupPage web node.addr = some page → (node.depth : Int) < cfg.maxDepth →
      P { s with
          links :=
            if cfg.strategy = "dfs" then
              dfs_step s.links.dropLast (clean_links (s.visited ++ [node.addr]) page.links)
                node.depth
            else
              bfs_step s.links.dropLast (clean_links (s.visited ++ [node.addr]) page.links)
                node.depth,
          topoNodes :=
            (addEdges node.addr (clean_links (s.visited ++ [node.addr]) page.links)
              (insertNode node.addr s.topoNodes) s.topoEdges).1,
          topoEdges :=
            (addEdges node.addr (clean_links (s.visited ++ [node.addr]) page.links)
              (insertNode node.addr s.topoNodes) s.topoEdges).2,
          visited := s.visited ++ [node.addr], accepted := s.accepted ++ [node],
          fetched := s.fetched ++ [node.addr],
          articles := dictInsert node.addr page.articles s.articles }) :
    P (crawlStep cfg web s) := by
  cases h : s.links.getLast? with
  | none => rw [crawlStep_none cfg web s h]; exact hnone h
  | some node =>
    by_cases hv : node.addr ∈ s.visited
    · rw [crawlStep_dup cfg web s node h hv]; exact hdup node h hv
    · by_cases hm : cfg.maxVisits = some ((s.visited.length : Int) + 1)
      · rw [crawlStep_limit cfg web s node h hv hm]; exact hlimit node h hv hm
      · cases hp : lookupPage web node.addr with
        | none => rw [crawlStep_fail cfg web s node h hv hm hp]; exact hfail node h hv hm hp
        | some page =>
          by_cases hd : (node.depth : Int) < cfg.maxDepth
          · rw [crawlStep_expand cfg web s node page h hv hm hp hd]
            exact hexp node page h hv hm hp hd
          · rw [crawlStep_noExpand cfg web s node page h hv hm hp hd]
            exact hnoexp node page h hv hm hp hd

/-! ### Small facts about the building blocks -/

theorem mem_insertNode_self (a : String) (l : List String) : a ∈ insertNode a l := by
  unfold insertNode
  split
  · assumption
  · simp

theorem subset_insertNode (a : String) (l : List String) : l ⊆ insertNode a l := by
  unfold insertNode
  split
  · exact fun _ h => h
  · exact fun _ h => List.mem_append_left _ h

theorem insertNode_eq_of_mem {a : String} {l : List String} (h : a ∈ l) :
    insertNode a l = l := by
  unfold insertNode
  exact if_pos h

theorem subset_addEdges_nodes (u : String) (vs : List String) (nodes : List String)
    (edges : List (String × String)) : nodes ⊆ (addEdges u vs nodes edges).1 := by
  induction vs generalizing nodes edges with
  | nil => exact fun _ h => h
  | cons v rest ih =>
    intro x hx
    apply ih
    exact subset_insertNode v _ (subset_insertNode u _ hx)

theorem mem_of_mem_clean_links {visited links : List String} {a : String}
    (h : a ∈ clean_links visited links) : a ∈ links := by
  unfold clean_links at h
  exact List.mem_of_mem_filter (List.mem_of_mem_filter h)

theorem clean_links_length_le (visited links : List String) :
    (clean_links visited links).length ≤ links.length := by
  unfold clean_links
  exact le_trans (List.length_filter_le _ _) (List.length_filter_le _ _)

/-- All hrefs appearing anywhere in the web table. -/
def webLinks (web : List (String × Page)) : List String :=
  web.flatMap fun p => p.2.links

/-- Every address a crawl can ever enqueue: the root plus every href in the
table. -/
def webAddrs (cfg : Config) (web : List (String × Page)) : List String :=
  cfg.root :: webLinks web

/-- The longest hrefs list of any page in the table. -/
def maxLinks (web : List (String × Page)) : Nat :=
  web.foldr (fun p m => max p.2.links.length m) 0

theorem lookupPage_links_subset {web : List (String × Page)} {a : String} {page : Page}
    (h : lookupPage web a = some page) : ∀ x ∈ page.links, x ∈ webLinks web := by
  induction web with
  | nil => simp [lookupPage] at h
  | cons hd tl ih =>
    obtain ⟨k, p⟩ := hd
    unfold lookupPage at h
    unfold webLinks List.flatMap
    by_cases hk : k = a
    · rw [if_pos hk] at h
      intro x hx
      obtain rfl : p = page := Option.some_inj.mp h
      simp only [List.map_cons, List.flatten]
      exact List.mem_append_left _ hx
    · rw [if_neg hk] at h
      intro x hx
      simp only [List.map_cons, List.flatten]
      exact List.mem_append_right _ (ih h x hx)

theorem lookupPage_links_length_le {web : List (String × Page)} {a : String} {page : Page}
    (h : lookupPage web a = some page) : page.links.length ≤ maxLinks web := by
  induction web with
  | nil => simp [lookupPage] at h
  | cons hd tl ih =>
    obtain ⟨k, p⟩ := hd
    unfold lookupPage at h
    unfold maxLinks
    by_cases hk : k = a
    · rw [if_pos hk] at h
      obtain rfl : p = page := Option.some_inj.mp h
      exact le_max_left _ _
    · rw [if_neg hk] at h
      exact le_trans (ih h) (le_max_right _ _)

theorem mem_of_getLast? {α : Type} {l : List α} {a : α} (h : l.getLast? = some a) : a ∈ l := by
  cases l with
  | nil => simp at h
  | cons x xs =>
    rw [List.getLast?_eq_getLast _ (by simp)] at h
    exact (Option.some_inj.mp h) ▸ List.getLast_mem _

/-! ### Basic facts about `crawlRun` -/

theorem crawlRun_terminal (cfg : Config) (web : List (String × Page)) (n : Nat)
    (s : CrawlState) (h : isTerminal s = true) : crawlRun cfg web n s = s := by
  cases n with
  | zero => rfl
  | succ k => unfold crawlRun; rw [if_pos h]

theorem crawlRun_succ_of_not_terminal (cfg : Config) (web : List (String × Page)) (n : Nat)
    (s : CrawlState) (h : isTerminal s = false) :
    crawlRun cfg web (n + 1) s = crawlRun cfg web n (crawlStep cfg web s) := by
  show (if isTerminal s = true then s else crawlRun cfg web n (crawlStep cfg web s)) = _
  rw [if_neg (by simp [h])]

theorem crawlRun_add (cfg : Config) (web : List (String × Page)) (a b : Nat)
    (s : CrawlState) : crawlRun cfg web (a + b) s = crawlRun cfg web b (crawlRun cfg web a s) := by
  induction a generalizing s with
  | zero => simp [crawlRun]
  | succ k ih =>
    cases h : isTerminal s with
    | true =>
      rw [crawlRun_terminal cfg web (k + 1) s h, crawlRun_terminal cfg web (k + 1 + b) s h]
      exact (crawlRun_terminal cfg web b s h).symm
    | false =>
      rw [crawlRun_succ_of_not_terminal cfg web k s h]
      have : k + 1 + b = (k + b) + 1 := by omega
      rw [this, crawlRun_succ_of_not_terminal cfg web (k + b) s h, ih]

/-! ### Visit-limit invariant -/

/-- The visited set never exceeds the bound `m`, and reaching the bound forces
the loop-terminating flag. -/
def VisitBound (m : Int) (s : CrawlState) : Prop :=
  ((s.visited.length : Int) ≤ m) ∧ (((s.visited.length : Int) = m) → s.limitReached = true)

theorem visitBound_step (cfg : Config) (web : List (String × Page)) (m : Int)
    (s : CrawlState) (hmv : cfg.maxVisits = some m) (hterm : isTerminal s = false)
    (h : VisitBound m s) : VisitBound m (crawlStep cfg web s) := by
  have hlr : s.limitReached = false := by
    unfold isTerminal at hterm
    exact (Bool.or_eq_false_iff.mp hterm).1
  have hne : ((s.visited.length : Int)) ≠ m := fun heq => by
    rw [h.2 heq] at hlr
    exact absurd hlr (by simp)
  have hlt : ((s.visited.length : Int)) < m := lt_of_le_of_ne h.1 hne
  apply crawlStep_cases cfg web s (VisitBound m)
  · intro _
    exact h
  · intro node _ _
    exact h
  · intro node _ _ hm
    have hmeq : m = (s.visited.length : Int) + 1 := by
      rw [hmv] at hm
      exact Option.some_inj.mp hm
    constructor
    · simp only [List.length_append, List.length_cons, List.length_nil]
      omega
    · intro _
      rfl
  · intro node _ _ hm _
    have hmne : m ≠ (s.visited.length : Int) + 1 := fun heq => hm (by rw [hmv, heq])
    constructor
    · simp only [List.length_append, List.length_cons, List.length_nil]
      omega
    · intro heq
      simp only [List.length_append, List.length_cons, List.length_nil] at heq
      omega
  · intro node page _ _ hm _ _
    have hmne : m ≠ (s.visited.length : Int) + 1 := fun heq => hm (by rw [hmv, heq])
    constructor
    · simp only [List.length_append, List.length_cons, List.length_nil]
      omega
    · intro heq
      simp only [List.length_append, List.length_cons, List.length_nil] at heq
      omega
  · intro node page _ _ hm _ _
    have hmne : m ≠ (s.visited.length : Int) + 1 := fun heq => hm (by rw [hmv, heq])
    constructor
    · simp only [List.length_append, List.length_cons, List.length_nil]
      omega
    · intro heq
      simp only [List.length_append, List.length_cons, List.length_nil] at heq
      omega

theorem visitBound_run (cfg : Config) (web : List (String × Page)) (m : Int)
    (hmv : cfg.maxVisits = some m) (n : Nat) :
    ∀ s : CrawlState, VisitBound m s → VisitBound m (crawlRun cfg web n s) := by
  induction n with
  | zero =>
    intro s h
    exact h
  | succ k ih =>
    intro s h
    cases hterm : isTerminal s with
    | true => rw [crawlRun_terminal cfg web (k + 1) s hterm]; exact h
    | false =>
      rw [crawlRun_succ_of_not_terminal cfg web k s hterm]
      exact ih _ (visitBound_step cfg web m s hmv hterm h)

/-! ### Fetch-trace invariant -/

/-- The fetch trace has no duplicates, fetched addresses are visited, and
visited addresses are topology nodes. -/
def FetchInv (s : CrawlState) : Prop :=
  s.fetched.Nodup ∧ (∀ a ∈ s.fetched, a ∈ s.visited) ∧
    (∀ a ∈ s.visited, a ∈ s.topoNodes)

theorem visited_extend_sub_insertNode {s : CrawlState} {addr : String}
    (h3 : ∀ a ∈ s.visited, a ∈ s.topoNodes) :
    ∀ a ∈ s.visited ++ [addr], a ∈ insertNode addr s.topoNodes := by
  intro a ha
  rcases List.mem_append.mp ha with ha | ha
  · exact subset_insertNode addr _ (h3 a ha)
  · rw [List.mem_singleton.mp ha]
    exact mem_insertNode_self addr _

theorem fetched_extend_nodup {s : CrawlState} {addr : String} (h1 : s.fetched.Nodup)
    (h2 : ∀ a ∈ s.fetched, a ∈ s.visited) (haddr : addr ∉ s.visited) :
    (s.fetched ++ [addr]).Nodup := by
  rw [List.nodup_append]
  refine ⟨h1, List.nodup_singleton addr, ?_⟩
  intro a ha hb
  rw [List.mem_singleton.mp hb] at ha
  exact haddr (h2 addr ha)

theorem fetchInv_step (cfg : Config) (web : List (String × Page)) (s : CrawlState)
    (h : FetchInv s) : FetchInv (crawlStep cfg web s) := by
  obtain ⟨h1, h2, h3⟩ := h
  apply crawlStep_cases cfg web s FetchInv
  · intro _
    exact ⟨h1, h2, h3⟩
  · intro node _ _
    exact ⟨h1, fun a ha => h2 a ha, fun a ha => subset_insertNode _ _ (h3 a ha)⟩
  · intro node _ hv _
    exact ⟨h1, fun a ha => List.mem_append_left _ (h2 a ha),
      visited_extend_sub_insertNode h3⟩
  · intro node _ hv _ _
    refine ⟨fetched_extend_nodup h1 h2 hv, ?_, visited_extend_sub_insertNode h3⟩
    intro a ha
    rcases List.mem_append.mp ha with ha | ha
    · exact List.mem_append_left _ (h2 a ha)
    · exact List.mem_append_right _ ha
  · intro node page _ hv _ _ _
    refine ⟨fetched_extend_nodup h1 h2 hv, ?_, visited_extend_sub_insertNode h3⟩
    intro a ha
    rcases List.mem_append.mp ha with ha | ha
    · exact List.mem_append_left _ (h2 a ha)
    · exact List.mem_append_right _ ha
  · intro node page _ hv _ _ _
    refine ⟨fetched_extend_nodup h1 h2 hv, ?_, ?_⟩
    · intro a ha
      rcases List.mem_append.mp ha with ha | ha
      · exact List.mem_append_left _ (h2 a ha)
      · exact List.mem_append_right _ ha
    · intro a ha
      exact subset_addEdges_nodes _ _ _ _ (visited_extend_sub_insertNode h3 a ha)

theorem fetchInv_run (cfg : Config) (web : List (String × Page)) (n : Nat) :
    ∀ s : CrawlState, FetchInv s → FetchInv (crawlRun cfg web n s) := by
  induction n with
  | zero =>
    intro s h
    exact h
  | succ k ih =>
    intro s h
    cases hterm : isTerminal s with
    | true => rw [crawlRun_terminal cfg web (k + 1) s hterm]; exact h
    | false =>
      rw [crawlRun_succ_of_not_terminal cfg web k s hterm]
      exact ih _ (fetchInv_step cfg web s h)

theorem fetchInv_init (cfg : Config) : FetchInv (initState cfg) := by
  refine ⟨List.nodup_nil, ?_, ?_⟩ <;> simp [initState]

/-! ### Termination measure -/

/-- Reachability invariant: every pending address and every visited address is
drawn from `webAddrs`, and the visited list has no duplicates. -/
def FrontierInv (cfg : Config) (web : List (String × Page)) (s : CrawlState) : Prop :=
  (∀ l ∈ s.links, l.addr ∈ webAddrs cfg web) ∧ s.visited.Nodup ∧
    (∀ a ∈ s.visited, a ∈ webAddrs cfg web)

theorem frontierInv_step (cfg : Config) (web : List (String × Page)) (s : CrawlState)
    (h : FrontierInv cfg web s) : FrontierInv cfg web (crawlStep cfg web s) := by
  obtain ⟨h1, h2, h3⟩ := h
  have hdrop : ∀ l ∈ s.links.dropLast, l.addr ∈ webAddrs cfg web :=
    fun l hl => h1 l ((List.dropLast_sublist s.links).subset hl)
  apply crawlStep_cases cfg web s (FrontierInv cfg web)
  · intro _
    exact ⟨h1, h2, h3⟩
  · intro node _ _
    exact ⟨hdrop, h2, h3⟩
  · intro node hlast hv _
    refine ⟨hdrop, List.Nodup.append h2 (List.nodup_singleton _) ?_, ?_⟩
    · intro a ha hb
      rw [List.mem_singleton.mp hb] at ha
      exact hv ha
    · intro a ha
      rcases List.mem_append.mp ha with ha | ha
      · exact h3 a ha
      · rw [List.mem_singleton.mp ha]
        exact h1 node (mem_of_getLast? hlast)
  · intro node hlast hv _ _
    refine ⟨hdrop, List.Nodup.append h2 (List.nodup_singleton _) ?_, ?_⟩
    · intro a ha hb
      rw [List.mem_singleton.mp hb] at ha
      exact hv ha
    · intro a ha
      rcases List.mem_append.mp ha with ha | ha
      · exact h3 a ha
      · rw [List.mem_singleton.mp ha]
        exact h1 node (mem_of_getLast? hlast)
  · intro node page hlast hv _ _ _
    refine ⟨hdrop, List.Nodup.append h2 (List.nodup_singleton _) ?_, ?_⟩
    · intro a ha hb
      rw [List.mem_singleton.mp hb] at ha
      exact hv ha
    · intro a ha
      rcases List.mem_append.mp ha with ha | ha
      · exact h3 a ha
      · rw [List.mem_singleton.mp ha]
        exact h1 node (mem_of_getLast? hlast)
  · intro node page hlast hv _ hp _
    have hnew : ∀ l ∈ (clean_links (s.visited ++ [node.addr]) page.links).map
        (fun el => Link.mk el (node.depth + 1)), l.addr ∈ webAddrs cfg web := by
      intro l hl
      obtain ⟨x, hx, rfl⟩ := List.mem_map.mp hl
      exact List.mem_cons_of_mem _
        (lookupPage_links_subset hp x (mem_of_mem_clean_links hx))
    refine ⟨?_, List.Nodup.append h2 (List.nodup_singleton _) ?_, ?_⟩
    · intro l hl
      split at hl
      · rcases List.mem_append.mp hl with hl | hl
        · exact hnew l hl
        · exact hdrop l hl
      · rcases List.mem_append.mp hl with hl | hl
        · exact hdrop l hl
        · exact hnew l hl
    · intro a ha hb
      rw [List.mem_singleton.mp hb] at ha
      exact hv ha
    · intro a ha
      rcases List.mem_append.mp ha with ha | ha
      · exact h3 a ha
      · rw [List.mem_singleton.mp ha]
        exact h1 node (mem_of_getLast? hlast)

theorem frontierInv_init (cfg : Config) (web : List (String × Page)) :
    FrontierInv cfg web (initState cfg) := by
  refine ⟨?_, List.nodup_nil, ?_⟩
  · intro l hl
    rw [List.mem_singleton.mp hl]
    exact List.mem_cons_self _ _
  · intro a ha
    simp [initState] at ha

theorem length_le_card_of_nodup_subset {l u : List String} (hn : l.Nodup)
    (hsub : ∀ a ∈ l, a ∈ u) : l.length ≤ u.toFinset.card := by
  rw [← List.toFinset_card_of_nodup hn]
  apply Finset.card_le_card
  intro x hx
  rw [List.mem_toFinset] at hx ⊢
  exact hsub x hx

/-- Termination measure: unvisited budget weighted by the worst-case fan-out,
plus the pending-list length. -/
def measureOf (cfg : Config) (web : List (String × Page)) (s : CrawlState) : Nat :=
  ((webAddrs cfg web).toFinset.card - s.visited.length) * (maxLinks web + 2) + s.links.length

theorem measure_arith {N v L len k : Nat} (hv : v + 1 ≤ N) (hlen : 1 ≤ len) (hk : k ≤ L) :
    (N - (v + 1)) * (L + 2) + (len - 1 + k) < (N - v) * (L + 2) + len := by
  have hNv : N - v = (N - (v + 1)) + 1 := by omega
  rw [hNv, add_mul, one_mul]
  generalize (N - (v + 1)) * (L + 2) = t
  omega

theorem append_singleton_nodup {l : List String} {a : String} (h : l.Nodup) (ha : a ∉ l) :
    (l ++ [a]).Nodup := by
  refine List.Nodup.append h (List.nodup_singleton _) ?_
  intro x hx hb
  rw [List.mem_singleton.mp hb] at hx
  exact ha hx

theorem append_singleton_subset {l u : List String} {a : String}
    (h : ∀ x ∈ l, x ∈ u) (ha : a ∈ u) : ∀ x ∈ l ++ [a], x ∈ u := by
  intro x hx
  rcases List.mem_append.mp hx with hx | hx
  · exact h x hx
  · rw [List.mem_singleton.mp hx]
    exact ha

theorem measureOf_step_lt (cfg : Config) (web : List (String × Page)) (s : CrawlState)
    (hterm : isTerminal s = false) (h : FrontierInv cfg web s) :
    measureOf cfg web (crawlStep cfg web s) < measureOf cfg web s := by
  obtain ⟨h1, h2, h3⟩ := h
  have hlinks : s.links ≠ [] := by
    unfold isTerminal at hterm
    have := (Bool.or_eq_false_iff.mp hterm).2
    exact fun heq => by simp [heq] at this
  have hlen : 1 ≤ s.links.length := List.length_pos.mpr hlinks
  apply crawlStep_cases cfg web s (fun t => measureOf cfg web t < measureOf cfg web s)
  · intro hnone
    exact absurd (List.getLast?_eq_none_iff.mp hnone) hlinks
  · intro node _ _
    unfold measureOf
    dsimp only
    simp only [List.length_dropLast]
    omega
  all_goals intro node
  case hlimit =>
    intro hlast hv _
    have hcard : s.visited.length + 1 ≤ (webAddrs cfg web).toFinset.card := by
      have hsub := append_singleton_subset h3 (h1 node (mem_of_getLast? hlast))
      have := length_le_card_of_nodup_subset (append_singleton_nodup h2 hv) hsub
      simpa using this
    unfold measureOf
    dsimp only
    simp only [List.length_dropLast, List.length_append, List.length_cons, List.length_nil]
    have := measure_arith hcard hlen (Nat.zero_le (maxLinks web))
    simpa using this
  case hfail =>
    intro hlast hv _ _
    have hcard : s.visited.length + 1 ≤ (webAddrs cfg web).toFinset.card := by
      have hsub := append_singleton_subset h3 (h1 node (mem_of_getLast? hlast))
      have := length_le_card_of_nodup_subset (append_singleton_nodup h2 hv) hsub
      simpa using this
    unfold measureOf
    dsimp only
    simp only [List.length_dropLast, List.length_append, List.length_cons, List.length_nil]
    have := measure_arith hcard hlen (Nat.zero_le (maxLinks web))
    simpa using this
  all_goals intro page hlast hv hm hp
  case hnoexp =>
    intro _
    have hcard : s.visited.length + 1 ≤ (webAddrs cfg web).toFinset.card := by
      have hsub := append_singleton_subset h3 (h1 node (mem_of_getLast? hlast))
      have := length_le_card_of_nodup_subset (append_singleton_nodup h2 hv) hsub
      simpa using this
    unfold measureOf
    dsimp only
    simp only [List.length_dropLast, List.length_append, List.length_cons, List.length_nil]
    have := measure_arith hcard hlen (Nat.zero_le (maxLinks web))
    simpa using this
  case hexp =>
    intro _
    have hcard : s.visited.length + 1 ≤ (webAddrs cfg web).toFinset.card := by
      have hsub := append_singleton_subset h3 (h1 node (mem_of_getLast? hlast))
      have := length_le_card_of_nodup_subset (append_singleton_nodup h2 hv) hsub
      simpa using this
    have hk : (clean_links (s.visited ++ [node.addr]) page.links).length ≤ maxLinks web :=
      le_trans (clean_links_length_le _ _) (lookupPage_links_length_le hp)
    unfold measureOf
    dsimp only
    have harith := measure_arith hcard hlen hk
    by_cases hstrat : cfg.strategy = "dfs"
    · simp only [hstrat, if_pos, dfs_step, List.length_append, List.length_map,
        List.length_dropLast, List.length_cons, List.length_nil]
      simpa [Nat.add_comm] using harith
    · simp only [hstrat, if_neg, bfs_step, List.length_append, List.length_map,
        List.length_dropLast, List.length_cons, List.length_nil]
      simpa [Nat.add_comm] using harith

theorem terminal_of_measure_le (cfg : Config) (web : List (String × Page)) :
    ∀ (k : Nat) (s : CrawlState), FrontierInv cfg web s → measureOf cfg web s ≤ k →
      isTerminal (crawlRun cfg web k s) = true := by
  intro k
  induction k with
  | zero =>
    intro s _ hM
    have hlen : s.links.length = 0 := by
      have : s.links.length ≤ measureOf cfg web s := Nat.le_add_left _ _
      omega
    show isTerminal s = true
    unfold isTerminal
    simp [List.length_eq_zero.mp hlen]
  | succ k ih =>
    intro s hInv hM
    cases hterm : isTerminal s with
    | true => rw [crawlRun_terminal _ _ _ _ hterm]; exact hterm
    | false =>
      rw [crawlRun_succ_of_not_terminal _ _ _ _ hterm]
      refine ih _ (frontierInv_step cfg web s hInv) ?_
      have := measureOf_step_lt cfg web s hterm hInv
      omega

theorem visited_length_step_le (cfg : Config) (web : List (String × Page)) (s : CrawlState) :
    s.visited.length ≤ (crawlStep cfg web s).visited.length := by
  apply crawlStep_cases cfg web s (fun t => s.visited.length ≤ t.visited.length)
  · intro _
    exact le_refl _
  · intro node _ _
    exact le_refl _
  · intro node _ _ _
    simp only [List.length_append, List.length_cons, List.length_nil]
    omega
  · intro node _ _ _ _
    simp only [List.length_append, List.length_cons, List.length_nil]
    omega
  · intro node page _ _ _ _ _
    simp only [List.length_append, List.length_cons, List.length_nil]
    omega
  · intro node page _ _ _ _ _
    simp only [List.length_append, List.length_cons, List.length_nil]
    omega

theorem visited_length_run_le (cfg : Config) (web : List (String × Page)) :
    ∀ (d : Nat) (s : CrawlState),
      s.visited.length ≤ (crawlRun cfg web d s).visited.length := by
  intro d
  induction d with
  | zero =>
    intro s
    exact le_refl _
  | succ k ih =>
    intro s
    cases hterm : isTerminal s with
    | true =>
      rw [crawlRun_terminal _ _ _ _ hterm]
    | false =>
      rw [crawlRun_succ_of_not_terminal _ _ _ _ hterm]
      exact le_trans (visited_length_step_le cfg web s) (ih _)

/-! ### The claims -/

/-- C1: the spec's breadth-first guarantee fails on the code.  On the chain
web with strategy `"bfs"` the accepted order is `A, C, D, B`: the depth-2 link
`D` is accepted strictly before the depth-1 link `B`, and the equal-depth pop
order (`C` before `B`) reverses the discovery order `[B, C]`.  Cause:
`crawl` pops `_links` from the end (`list.pop()`) while `_bfs_step` appends
to the end, so "bfs" processes the pending list LIFO. -/
theorem bfs_depth_order_violated_on_chain :
    (crawlRun cfgBfsChain webChain 10 (initState cfgBfsChain)).accepted =
      [⟨addrA, 0⟩, ⟨addrC, 1⟩, ⟨addrD, 2⟩, ⟨addrB, 1⟩] ∧
    (crawlRun cfgBfsChain webChain 10 (initState cfgBfsChain)).accepted.map Link.depth =
      [0, 1, 2, 1] := by
  constructor <;> decide

/-- C2: the spec's depth-first child-first guarantee fails on the code.  On
the chain web with strategy `"dfs"` the accepted order is `A, C, B, D`: after
`C`'s child `D` is discovered (pending list `[D, B]`), the still-pending
sibling `B` is accepted before `D`.  Cause: `_dfs_step` prepends new links
while `crawl` pops from the end, so "dfs" processes the pending list FIFO. -/
theorem dfs_child_first_violated_on_chain :
    (crawlRun cfgDfsChain webChain 10 (initState cfgDfsChain)).accepted =
      [⟨addrA, 0⟩, ⟨addrC, 1⟩, ⟨addrB, 1⟩, ⟨addrD, 2⟩] := by
  decide

/-- C3 (counterexample): in Scenario B the article store does not hold 2
entries. -/
theorem scenarioB_articles_not_two :
    (crawlRun cfgScB webScB 10 (initState cfgScB)).articles.length ≠ 2 := by
  decide

/-- C3 (amended): in Scenario B the run stops in the visit-limit state after
accepting exactly two addresses, the root `A` and then `C`, but the article
store holds exactly ONE entry (the root's): the second accepted link hits the
visit limit before its page is fetched, so no article is stored for it. -/
theorem scenarioB_run_stops_with_one_article :
    (crawlRun cfgScB webScB 10 (initState cfgScB)).accepted =
      [⟨addrA, 0⟩, ⟨addrC, 1⟩] ∧
    (crawlRun cfgScB webScB 10 (initState cfgScB)).visited = [addrA, addrC] ∧
    (crawlRun cfgScB webScB 10 (initState cfgScB)).limitReached = true ∧
    (crawlRun cfgScB webScB 10 (initState cfgScB)).articles = [(addrA, ["articleA"])] := by
  refine ⟨?_, ?_, ?_, ?_⟩ <;> decide

/-- C4: with a positive finite bound `m`, (i) an accepted link that brings the
visited size to exactly `m` flips the limit flag and is not fetched (the fetch
trace is unchanged); (ii) the visited size is non-decreasing across loop
iterations; (iii) the visited size never exceeds `m` during a run. -/
theorem visit_limit_semantics (cfg : Config) (web : List (String × Page)) (m : Int)
    (hm : 0 < m) (hmv : cfg.maxVisits = some m) :
    (∀ (s : CrawlState) (node : Link), s.links.getLast? = some node →
        node.addr ∉ s.visited → m = (s.visited.length : Int) + 1 →
        (crawlStep cfg web s).limitReached = true ∧
        (crawlStep cfg web s).fetched = s.fetched) ∧
    (∀ n d : Nat, (crawlRun cfg web n (initState cfg)).visited.length ≤
        (crawlRun cfg web (n + d) (initState cfg)).visited.length) ∧
    (∀ n : Nat, ((crawlRun cfg web n (initState cfg)).visited.length : Int) ≤ m) := by
  refine ⟨?_, ?_, ?_⟩
  · intro s node hlast hv hmeq
    rw [crawlStep_limit cfg web s node hlast hv (by rw [hmv, hmeq])]
    exact ⟨rfl, rfl⟩
  · intro n d
    rw [crawlRun_add]
    exact visited_length_run_le cfg web d _
  · intro n
    have hinit : VisitBound m (initState cfg) := by
      constructor
      · simp only [initState, List.length_nil, Nat.cast_zero]
        omega
      · intro heq
        simp only [initState, List.length_nil, Nat.cast_zero] at heq
        exact absurd heq (by omega)
    exact (visitBound_run cfg web m hmv n (initState cfg) hinit).1

/-- C4 witness: the Scenario B run.  The second accepted link `C` brings the
visited size to the bound 2: the flag flips and nothing more is fetched;
visited size is monotone in the fuel and stays at most 2. -/
theorem visit_limit_semantics_witness :
    ((crawlStep cfgScB webScB (crawlRun cfgScB webScB 1 (initState cfgScB))).limitReached = true ∧
     (crawlStep cfgScB webScB (crawlRun cfgScB webScB 1 (initState cfgScB))).fetched =
       (crawlRun cfgScB webScB 1 (initState cfgScB)).fetched) ∧
    (crawlRun cfgScB webScB 2 (initState cfgScB)).visited.length ≤
      (crawlRun cfgScB webScB (2 + 3) (initState cfgScB)).visited.length ∧
    ((crawlRun cfgScB webScB 5 (initState cfgScB)).visited.length : Int) ≤ 2 := by
  obtain ⟨hA, hB, hC⟩ := visit_limit_semantics cfgScB webScB 2 (by norm_num) rfl
  exact ⟨hA _ ⟨addrC, 1⟩ (by decide) (by decide) (by decide), hB 2 3, hC 5⟩

/-- C5: soundness of the link filter.  Every address `_clean_links` returns
satisfies the configured domain-scope test (it contains the substring
`"://www.unipa.it"`), does not match the excluded path pattern
(`"://www.unipa.it/.content"`), does not end in the excluded extension
`"pdf"`, and is not already visited.  In particular no address failing the
domain-scope test is ever returned. -/
theorem clean_links_sound (visited links : List String) (a : String)
    (ha : a ∈ clean_links visited links) :
    hasSubstr a "://www.unipa.it" = true ∧
    hasSubstr a "://www.unipa.it/.content" = false ∧
    strEndsWith a "pdf" = false ∧ a ∉ visited := by
  unfold clean_links at ha
  have h2 := List.of_mem_filter ha
  have h1 := List.of_mem_filter (List.mem_of_mem_filter ha)
  simp only [Bool.and_eq_true, Bool.not_eq_true'] at h1
  refine ⟨h1.1.1, h1.1.2, h1.2, ?_⟩
  simpa using h2

/-- C5 witness: Scenario C.  The survivor of the three-address input set
satisfies all four filter conditions. -/
theorem clean_links_sound_witness :
    hasSubstr "https://www.unipa.it/news/x.html" "://www.unipa.it" = true ∧
    hasSubstr "https://www.unipa.it/news/x.html" "://www.unipa.it/.content" = false ∧
    strEndsWith "https://www.unipa.it/news/x.html" "pdf" = false ∧
    "https://www.unipa.it/news/x.html" ∉ ([] : List String) :=
  clean_links_sound []
    ["https://other.org/x", "https://www.unipa.it/doc.pdf", "https://www.unipa.it/news/x.html"]
    "https://www.unipa.it/news/x.html" (by decide)

/-- C6: (i) during a run every address is passed to `_fetch_page` at most
once; (ii) popping a Link whose address is already visited changes nothing
but removing it from the pending list — the topology nodes and edges, the
article store, the visited set and the fetch trace are all untouched by that
iteration. -/
theorem fetch_at_most_once_and_dup_pop_frame (cfg : Config) (web : List (String × Page)) :
    (∀ (n : Nat) (a : String),
      (crawlRun cfg web n (initState cfg)).fetched.count a ≤ 1) ∧
    (∀ (n : Nat) (node : Link),
      (crawlRun cfg web n (initState cfg)).links.getLast? = some node →
      node.addr ∈ (crawlRun cfg web n (initState cfg)).visited →
      crawlStep cfg web (crawlRun cfg web n (initState cfg)) =
        { crawlRun cfg web n (initState cfg) with
          links := (crawlRun cfg web n (initState cfg)).links.dropLast }) := by
  constructor
  · intro n a
    exact List.nodup_iff_count_le_one.mp (fetchInv_run cfg web n _ (fetchInv_init cfg)).1 a
  · intro n node hlast hv
    have hinv := fetchInv_run cfg web n _ (fetchInv_init cfg)
    rw [crawlStep_dup cfg web _ node hlast hv,
      insertNode_eq_of_mem (hinv.2.2 node.addr hv)]

/-- C6 witness: Scenario D.  In the duplicate-link web under depth-first,
after 4 iterations the pending list ends with the already-visited `D`; the
next iteration only drops it, and `D` was fetched at most once over the whole
run. -/
theorem fetch_at_most_once_and_dup_pop_frame_witness :
    (crawlRun cfgDup webDup 10 (initState cfgDup)).fetched.count addrD ≤ 1 ∧
    crawlStep cfgDup webDup (crawlRun cfgDup webDup 4 (initState cfgDup)) =
      { crawlRun cfgDup webDup 4 (initState cfgDup) with
        links := (crawlRun cfgDup webDup 4 (initState cfgDup)).links.dropLast } := by
  obtain ⟨hA, hB⟩ := fetch_at_most_once_and_dup_pop_frame cfgDup webDup
  exact ⟨hA 10 addrD, hB 4 ⟨addrD, 2⟩ (by decide) (by decide)⟩

/-- C7: on any finite web table the crawl reaches a terminal state in finitely
many iterations — either the visit-limit flag is set (VISIT_LIMIT_REACHED) or
the pending list is empty (EXHAUSTED) — even when the link graph is cyclic.
The finite-reachable-set hypothesis of the claim is built into the model: the
web is a finite table, so the addresses reachable from the root are finite. -/
theorem crawl_terminates (cfg : Config) (web : List (String × Page)) :
    ∃ n : Nat, (crawlRun cfg web n (initState cfg)).limitReached = true ∨
      (crawlRun cfg web n (initState cfg)).links = [] := by
  refine ⟨measureOf cfg web (initState cfg), ?_⟩
  have h := terminal_of_measure_le cfg web (measureOf cfg web (initState cfg)) (initState cfg)
    (frontierInv_init cfg web) le_rfl
  unfold isTerminal at h
  rcases Bool.or_eq_true_iff.mp h with h | h
  · exact Or.inl h
  · exact Or.inr (by simpa using h)

/-- C8 (counterexample): constructing with a negative `max_depth` and a
negative `max_visits` succeeds — the constructor validates neither bound. -/
theorem mkCrawler_accepts_negative_bounds :
    (mkCrawler "https://www.unipa.it/" (-1) (some (-2)) "bfs").isSome = true := by
  decide

/-- C8 (amended): construction succeeds exactly when the strategy name is one
of `"bfs"`, `"dfs"` — an unknown strategy fails at construction time (the
`_funcs` dictionary lookup raises `KeyError`, so the object is never created,
never a runtime branch failure) — and for a known strategy construction
succeeds for every depth and visit bound, negative ones included: the bounds
are not validated. -/
theorem mkCrawler_some_iff_known_strategy (root : String) (maxDepth : Int)
    (maxVisits : Option Int) (strategy : String) :
    (mkCrawler root maxDepth maxVisits strategy).isSome = true ↔
      strategy = "bfs" ∨ strategy = "dfs" := by
  unfold mkCrawler lookupStrategy
  by_cases h1 : strategy = "dfs"
  · simp [h1]
  · by_cases h2 : strategy = "bfs" <;> simp [h1, h2]

/-- C10: `crawl` always returns `None` — its returned value component is
`none` for every configuration, web and fuel, despite the declared
`dict[str, list[str]]` return annotation — and the collected articles are
exposed only through `output_articles`, which serializes exactly the internal
`_articles` mapping. -/
theorem crawl_returns_none (cfg : Config) (web : List (String × Page)) (fuel : Nat) :
    (crawl cfg web fuel).2 = none ∧
    output_articles (crawl cfg web fuel).1 = (crawl cfg web fuel).1.articles :=
  ⟨rfl, rfl⟩

/-- C9 (counterexample): a network error is NOT tolerated by the run.
Crawling the chain configuration against `webNet`, the fetch of `C` raises
the uncaught `requests` exception while sibling `B` is still pending, and
the whole run aborts with the exception instead of continuing with the next
Frontier entry. -/
theorem network_error_aborts_run :
    crawlRunE cfgBfsChain webNet 10 (initState cfgBfsChain) = Except.error () := by
  rfl

/-- C9 (amended): when `_fetch_page` REPORTS failure by returning `None` —
malformed address (`validators.url` fails) or non-success response — the
popped Link is abandoned with no article entry, no new edges and no
expansion (the resulting state differs from the popped one only in the
visited mark, the node insertion and the fetch trace), and the run continues
with the next Frontier entry; but when the fetch raises (network error) the
exception propagates and the run aborts. -/
theorem fetch_failure_not_fatal_amended (cfg : Config)
    (webE : List (String × FetchOutcome)) (s : CrawlState) (node : Link)
    (hlast : s.links.getLast? = some node) (hv : node.addr ∉ s.visited)
    (hm : cfg.maxVisits ≠ some ((s.visited.length : Int) + 1)) :
    (lookupOutcome webE node.addr = FetchOutcome.invalidUrl ∨
       lookupOutcome webE node.addr = FetchOutcome.httpError →
      crawlStepE cfg webE s =
        Except.ok { s with links := s.links.dropLast,
                           topoNodes := insertNode node.addr s.topoNodes,
                           visited := s.visited ++ [node.addr],
                           accepted := s.accepted ++ [node],
                           fetched := s.fetched ++ [node.addr] }) ∧
    (lookupOutcome webE node.addr = FetchOutcome.netError →
      crawlStepE cfg webE s = Except.error ()) := by
  constructor
  · intro hrep
    have hfp : fetch_page webE node.addr = Except.ok none := by
      rcases hrep with h | h <;> simp [fetch_page, h]
    simp only [crawlStepE, hlast]
    simp [hv, hm, hfp]
  · intro hnet
    have hfp : fetch_page webE node.addr = Except.error () := by
      simp [fetch_page, hnet]
    simp only [crawlStepE, hlast]
    simp [hv, hm, hfp]

/-- C9 witness: both halves at concrete inputs.  Against an empty outcome
table the root's fetch is a reported failure and the iteration only pops,
marks and records the root; against a table where the root's fetch raises,
the iteration aborts the run. -/
theorem fetch_failure_not_fatal_amended_witness :
    crawlStepE cfgBfsChain [] (initState cfgBfsChain) =
      Except.ok { initState cfgBfsChain with
                  links := (initState cfgBfsChain).links.dropLast,
                  topoNodes := insertNode addrA (initState cfgBfsChain).topoNodes,
                  visited := (initState cfgBfsChain).visited ++ [addrA],
                  accepted := (initState cfgBfsChain).accepted ++ [⟨addrA, 0⟩],
                  fetched := (initState cfgBfsChain).fetched ++ [addrA] } ∧
    crawlStepE cfgBfsChain [(addrA, FetchOutcome.netError)] (initState cfgBfsChain) =
      Except.error () := by
  constructor
  · exact (fetch_failure_not_fatal_amended cfgBfsChain [] (initState cfgBfsChain)
      ⟨addrA, 0⟩ (by decide) (by decide) (by decide)).1 (Or.inl (by decide))
  · exact (fetch_failure_not_fatal_amended cfgBfsChain [(addrA, FetchOutcome.netError)]
      (initState cfgBfsChain) ⟨addrA, 0⟩ (by decide) (by decide) (by decide)).2 (by decide)
